import Mathlib

set_option linter.unusedVariables false

namespace Autopilot

/-! Shallow embedding of the client-side store of the autopilot repository.
The data model mirrors src/types/index.ts and src/types/github.ts; the
operations mirror the zustand store in src/utils (selectWorktree,
addTerminal, addTerminalWithCommand, removeTerminal, setActiveTerminal,
updateWorktreeBranch, setPRDataCache, getPRDataCache), the per-key debounce
maps of src/hooks/useGitWatcher.ts, and the diff loader of
src/hooks/useCodeReview.ts.  JavaScript Record objects are embedded as
association lists with unique keys; calls to the Tauri collaborator are
recorded explicitly as a list of emitted backend calls, and the outcome of
an awaited spawn is an explicit parameter. -/

/-- Mirror of interface RepoInfo in src/types/index.ts. -/
structure RepoInfo where
  path : String
  name : String
deriving DecidableEq, Repr

/-- Mirror of interface DiffStats in src/types/index.ts. -/
structure DiffStats where
  additions : Nat
  deletions : Nat
deriving DecidableEq, Repr

/-- Mirror of interface WorktreeInfo in src/types/index.ts. -/
structure WorktreeInfo where
  name : String
  path : String
  branch : Option String
  last_modified : Option String
  diff_stats : Option DiffStats
deriving DecidableEq, Repr

/-- Mirror of interface TerminalInstance in src/types/index.ts. -/
structure TerminalInstance where
  id : String
  worktreePath : String
  worktreeName : String
deriving DecidableEq, Repr

/-- Mirror of interface WorktreeTerminals in the store source. -/
structure WorktreeTerminals where
  terminals : List TerminalInstance
  activeTerminalId : Option String
deriving DecidableEq, Repr

/-- Mirror of interface Repository in src/types/index.ts. -/
structure Repository where
  info : RepoInfo
  worktrees : List WorktreeInfo
  isExpanded : Bool
deriving DecidableEq, Repr

/-- The union type of PRStatus.state in src/types/github.ts
(the string literals open, closed, merged). -/
inductive PRState
  | opened
  | closed
  | merged
deriving DecidableEq, Repr

/-- Mirror of interface PRStatus in src/types/github.ts. -/
structure PRStatus where
  number : Nat
  title : String
  url : String
  state : PRState
  merged : Bool
  draft : Bool
  review_decision : Option String
  checks_status : Option String
  additions : Nat
  deletions : Nat
  head_branch : String
deriving DecidableEq, Repr

/-- Mirror of interface PRCheck in src/types/github.ts. -/
structure PRCheck where
  name : String
  status : String
  conclusion : Option String
  url : Option String
  started_at : Option String
  completed_at : Option String
deriving DecidableEq, Repr

/-- Mirror of interface PRChecksResult in src/types/github.ts. -/
structure PRChecksResult where
  checks : List PRCheck
  overall_status : String
deriving DecidableEq, Repr

/-- Mirror of interface PRComment in src/types/github.ts. -/
structure PRComment where
  author : String
  body : String
  created_at : String
  comment_type : String
  state : Option String
  path : Option String
  line : Option Nat
  review_id : Option String
deriving DecidableEq, Repr

/-- Mirror of interface PRDetailedInfo in src/types/github.ts. -/
structure PRDetailedInfo where
  merge_state_status : String
  mergeable : String
  comments : List PRComment
  review_decision : Option String
deriving DecidableEq, Repr

/-- Mirror of interface PRDataCache in the store source: one entry of the
keyed PR data cache; lastUpdated is a Date.now() millisecond stamp. -/
structure PRDataCache where
  checksResult : Option PRChecksResult
  prDetails : Option PRDetailedInfo
  lastUpdated : Int
deriving DecidableEq, Repr

/-! JavaScript Record objects keyed by strings are embedded as association
lists.  A spread update with a computed key replaces the value
at an existing key in place and appends a fresh key at the end; reading an
absent key yields undefined, embedded as none. -/

/-- Read a key of an embedded Record (undefined becomes none); the first
entry with the key wins, and keys are unique in every Record a JavaScript
object can denote. -/
def recordGet {α : Type} : List (String × α) → String → Option α
  | [], _ => none
  | p :: m, k => if p.1 = k then some p.2 else recordGet m k

/-- Whether an embedded Record has a key. -/
def recordHas {α : Type} : List (String × α) → String → Bool
  | [], _ => false
  | p :: m, k => p.1 = k || recordHas m k

/-- Spread update of an embedded Record at a computed key, as in
the store's set calls. -/
def recordSet {α : Type} (m : List (String × α)) (k : String) (v : α) :
    List (String × α) :=
  if recordHas m k then m.map (fun p => if p.1 = k then (k, v) else p)
  else m ++ [(k, v)]

/-- The keys of an embedded Record. -/
def recordKeys {α : Type} (m : List (String × α)) : List String :=
  m.map Prod.fst

/-- The slice of the zustand AppStore state that the verified operations
read and write (repositories, selection, terminal multiplexer state and the
PR data caches). -/
structure AppState where
  repositories : List Repository
  selectedWorktree : Option WorktreeInfo
  terminalsByWorktree : List (String × WorktreeTerminals)
  currentTerminals : List TerminalInstance
  currentActiveTerminalId : Option String
  prStatusByBranch : List (String × List (String × PRStatus))
  prDataCache : List (String × PRDataCache)
deriving DecidableEq, Repr

/-- The initial store state set up by create (the fields of the slice). -/
def initialAppState : AppState :=
  { repositories := []
    selectedWorktree := none
    terminalsByWorktree := []
    currentTerminals := []
    currentActiveTerminalId := none
    prStatusByBranch := []
    prDataCache := [] }

/-- A request issued to the Tauri collaborator by a store operation. -/
inductive BackendCall
  | spawnTerminal (cwd : String)
  | spawnTerminalWithCom (cwd : String) (command : String)
  | closeTerminal (terminalId : String)
deriving DecidableEq, Repr

/-- Outcome of an awaited spawn call: the backend either returns a
terminal_id or throws. -/
inductive SpawnOutcome
  | ok (terminalId : String)
  | err
deriving DecidableEq, Repr

/-- Result of an asynchronous store operation: the store state after the
call (unchanged when the operation threw before its set call), the value
returned or the propagated error, and the backend calls issued. -/
structure AsyncResult (α : Type) where
  state : AppState
  result : Except Unit α
  calls : List BackendCall
deriving Repr

/-- The backend calls of an async result that are spawns. -/
def AsyncResult.spawnCalls {α : Type} (r : AsyncResult α) : Nat :=
  (r.calls.filter (fun c =>
    match c with
    | .spawnTerminal _ => true
    | .spawnTerminalWithCom _ _ => true
    | .closeTerminal _ => false)).length

/-- Embedding of selectWorktree from the store source.  It returns early
when the worktree is already selected; switches to an existing non-empty
WorktreeTerminals entry without any backend call; otherwise awaits one
spawn_terminal call and, on success, installs the single fresh session as
the entry for the worktree. -/
def selectWorktree (spawn : SpawnOutcome) (worktree : WorktreeInfo)
    (s : AppState) : AsyncResult Unit :=
  if (s.selectedWorktree.map WorktreeInfo.path) = some worktree.path then
    ⟨s, .ok (), []⟩
  else
    match recordGet s.terminalsByWorktree worktree.path with
    | some existing =>
      if existing.terminals.length > 0 then
        ⟨{ s with
            selectedWorktree := some worktree
            currentTerminals := existing.terminals
            currentActiveTerminalId := existing.activeTerminalId },
          .ok (), []⟩
      else
        match spawn with
        | .err => ⟨s, .error (), [.spawnTerminal worktree.path]⟩
        | .ok tid =>
          let terminal : TerminalInstance := ⟨tid, worktree.path, worktree.name⟩
          ⟨{ s with
              selectedWorktree := some worktree
              currentTerminals := [terminal]
              currentActiveTerminalId := some terminal.id
              terminalsByWorktree := recordSet s.terminalsByWorktree
                worktree.path ⟨[terminal], some terminal.id⟩ },
            .ok (), [.spawnTerminal worktree.path]⟩
    | none =>
      match spawn with
      | .err => ⟨s, .error (), [.spawnTerminal worktree.path]⟩
      | .ok tid =>
        let terminal : TerminalInstance := ⟨tid, worktree.path, worktree.name⟩
        ⟨{ s with
            selectedWorktree := some worktree
            currentTerminals := [terminal]
            currentActiveTerminalId := some terminal.id
            terminalsByWorktree := recordSet s.terminalsByWorktree
              worktree.path ⟨[terminal], some terminal.id⟩ },
          .ok (), [.spawnTerminal worktree.path]⟩

/-- Embedding of addTerminal from the store source: null when no worktree
is selected, otherwise one spawn_terminal call; on success the fresh
session is appended and made active both in the current lists and in the
selected worktree's entry. -/
def addTerminal (spawn : SpawnOutcome) (s : AppState) :
    AsyncResult (Option String) :=
  match s.selectedWorktree with
  | none => ⟨s, .ok none, []⟩
  | some worktree =>
    match spawn with
    | .err => ⟨s, .error (), [.spawnTerminal worktree.path]⟩
    | .ok tid =>
      let terminal : TerminalInstance := ⟨tid, worktree.path, worktree.name⟩
      let newTerminals := s.currentTerminals ++ [terminal]
      ⟨{ s with
          currentTerminals := newTerminals
          currentActiveTerminalId := some terminal.id
          terminalsByWorktree := recordSet s.terminalsByWorktree
            worktree.path ⟨newTerminals, some terminal.id⟩ },
        .ok (some terminal.id), [.spawnTerminal worktree.path]⟩

/-- Embedding of addTerminalWithCommand from the store source: identical
local state transition to addTerminal, but the backend call carries the
command and goes to spawn_terminal_with_command. -/
def addTerminalWithCommand (spawn : SpawnOutcome) (command : String)
    (s : AppState) : AsyncResult (Option String) :=
  match s.selectedWorktree with
  | none => ⟨s, .ok none, []⟩
  | some worktree =>
    match spawn with
    | .err => ⟨s, .error (), [.spawnTerminalWithCom worktree.path command]⟩
    | .ok tid =>
      let terminal : TerminalInstance := ⟨tid, worktree.path, worktree.name⟩
      let newTerminals := s.currentTerminals ++ [terminal]
      ⟨{ s with
          currentTerminals := newTerminals
          currentActiveTerminalId := some terminal.id
          terminalsByWorktree := recordSet s.terminalsByWorktree
            worktree.path ⟨newTerminals, some terminal.id⟩ },
        .ok (some terminal.id), [.spawnTerminalWithCom worktree.path command]⟩

/-- The promoted active id after a removal in the store source:
newTerminals[newTerminals.length - 1]?.id || null.  The JavaScript
|| null maps an empty-string id (falsy) to null as well as undefined. -/
def lastIdOrNull (l : List TerminalInstance) : Option String :=
  match l.getLast? with
  | none => none
  | some t => if t.id = "" then none else some t.id

/-- Embedding of removeTerminal from the store source.  The close_terminal
call is fired unconditionally before the guard; with no selected worktree
the local update is skipped; otherwise the id is filtered out of the
current list and the promoted active id is written both to the current
fields and to the selected worktree's entry. -/
def removeTerminal (terminalId : String) (s : AppState) :
    AppState × List BackendCall :=
  let calls : List BackendCall := [.closeTerminal terminalId]
  match s.selectedWorktree with
  | none => (s, calls)
  | some worktree =>
    let newTerminals := s.currentTerminals.filter (fun t => ¬ (t.id = terminalId))
    let newActiveId :=
      if s.currentActiveTerminalId = some terminalId then lastIdOrNull newTerminals
      else s.currentActiveTerminalId
    ({ s with
        currentTerminals := newTerminals
        currentActiveTerminalId := newActiveId
        terminalsByWorktree := recordSet s.terminalsByWorktree
          worktree.path ⟨newTerminals, newActiveId⟩ },
      calls)

/-- Embedding of setActiveTerminal from the store source: a no-op with no
selected worktree; otherwise it overwrites currentActiveTerminalId and the
activeTerminalId of the selected worktree's entry, keeping that entry's
terminals.  When the selected worktree has no entry the source spreads
undefined, leaving the terminals field undefined; that unreachable branch
(the store always creates the entry when a worktree becomes selected) is
embedded with an empty terminals list. -/
def setActiveTerminal (terminalId : String) (s : AppState) : AppState :=
  match s.selectedWorktree with
  | none => s
  | some worktree =>
    let entry :=
      match recordGet s.terminalsByWorktree worktree.path with
      | some e => { e with activeTerminalId := some terminalId }
      | none => ⟨[], some terminalId⟩
    { s with
        currentActiveTerminalId := some terminalId
        terminalsByWorktree := recordSet s.terminalsByWorktree
          worktree.path entry }

/-- Embedding of updateWorktreeBranch from the store source; branch is the
value returned by the awaited get_worktree_branch_name call.  Every
worktree whose path matches gets the new branch, in every repository, and
the selectedWorktree snapshot is updated when its path matches. -/
def updateWorktreeBranch (branch : Option String) (worktreePath : String)
    (s : AppState) : AppState :=
  { s with
      repositories := s.repositories.map (fun repo =>
        { repo with
            worktrees := repo.worktrees.map (fun wt =>
              if wt.path = worktreePath then { wt with branch := branch } else wt) })
      selectedWorktree :=
        match s.selectedWorktree with
        | some sw =>
          if sw.path = worktreePath then some { sw with branch := branch }
          else some sw
        | none => none }

/-- The cache key template of the PR data cache in the store source. -/
def prCacheKey (repoPath : String) (prNumber : Nat) : String :=
  repoPath ++ ":" ++ toString prNumber

/-- The data argument of setPRDataCache: each field is independently
either omitted (outer none, the undefined case) or supplied (possibly as
an explicit null, the inner none). -/
structure PRDataUpdate where
  checksResult : Option (Option PRChecksResult)
  prDetails : Option (Option PRDetailedInfo)
deriving DecidableEq, Repr

/-- Embedding of setPRDataCache from the store source; now is the
Date.now() stamp.  A supplied field overwrites, an omitted field keeps the
existing value (null when no entry existed), and lastUpdated is always set
to now. -/
def setPRDataCache (now : Int) (repoPath : String) (prNumber : Nat)
    (data : PRDataUpdate) (s : AppState) : AppState :=
  let cacheKey := prCacheKey repoPath prNumber
  let existing := (recordGet s.prDataCache cacheKey).getD ⟨none, none, 0⟩
  { s with
      prDataCache := recordSet s.prDataCache cacheKey
        { checksResult := data.checksResult.getD existing.checksResult
          prDetails := data.prDetails.getD existing.prDetails
          lastUpdated := now } }

/-- The five-minute TTL constant of getPRDataCache, in milliseconds. -/
def CACHE_TTL_MS : Int := 5 * 60 * 1000

/-- Embedding of getPRDataCache from the store source; now is the
Date.now() stamp.  Absent keys yield null, entries older than the TTL
yield null without being removed (the function does not write state),
otherwise the entry itself is returned. -/
def getPRDataCache (now : Int) (repoPath : String) (prNumber : Nat)
    (s : AppState) : Option PRDataCache :=
  let cacheKey := prCacheKey repoPath prNumber
  match recordGet s.prDataCache cacheKey with
  | none => none
  | some cached =>
    if now - cached.lastUpdated > CACHE_TTL_MS then none
    else some cached

/-! The session-multiplexer invariant.  Beyond the per-entry invariant of
the spec (activeTerminalId is null or the id of a listed session) the
reachable store states also couple the selected worktree's entry with the
current lists and keep Record keys unique; both facts are needed to show
the per-entry invariant is preserved. -/

/-- Per-entry invariant: the active id is null or the id of some session
in the entry's list. -/
def entryInvB (e : WorktreeTerminals) : Bool :=
  match e.activeTerminalId with
  | none => true
  | some a => e.terminals.any (fun t => t.id == a)

/-- Every entry of terminalsByWorktree satisfies the per-entry invariant. -/
def entriesInvB (s : AppState) : Bool :=
  s.terminalsByWorktree.all (fun p => entryInvB p.2)

/-- The current active id is null or the id of some current session. -/
def currentInvB (s : AppState) : Bool :=
  match s.currentActiveTerminalId with
  | none => true
  | some a => s.currentTerminals.any (fun t => t.id == a)

/-- When a worktree is selected, its entry exists and mirrors the current
session list and active id (the store writes both in lock step). -/
def couplingB (s : AppState) : Bool :=
  match s.selectedWorktree with
  | none => true
  | some w =>
    decide (recordGet s.terminalsByWorktree w.path
      = some ⟨s.currentTerminals, s.currentActiveTerminalId⟩)

/-- The full store invariant of the session multiplexer. -/
def Inv (s : AppState) : Prop :=
  entriesInvB s = true ∧ currentInvB s = true ∧ couplingB s = true ∧
    (recordKeys s.terminalsByWorktree).Nodup

instance : DecidablePred Inv := fun _ => by unfold Inv; infer_instance

/-! Embedding of the per-key debounce maps of src/hooks/useGitWatcher.ts
(debouncedBranchUpdate and debouncedWorktreeRefresh).  A pending timer map
is a Record from key to the deadline of its armed setTimeout; an action
invocation is recorded as the pair of the key (the argument the callback
passes to the underlying action) and the deadline at which the timer
fired.  Triggers are processed in real-time order: a trigger at time t
first lets every timer whose deadline has passed fire, then clears any
pending timer for its key and arms a fresh one t + delay; when the trace
ends, every still-pending timer eventually fires. -/

/-- State of one debounce map: armed timers (key, deadline) and the action
invocations so far (key, fire time). -/
structure DebounceState where
  pending : List (String × Nat)
  fired : List (String × Nat)
deriving DecidableEq, Repr

/-- Let every timer whose deadline is at or before t fire. -/
def fireDue (t : Nat) (st : DebounceState) : DebounceState :=
  { pending := st.pending.filter (fun p => ¬ (p.2 ≤ t))
    fired := st.fired ++ st.pending.filter (fun p => p.2 ≤ t) }

/-- One trigger of the debounced callback for key k at time t: the source
clears any existing timeout for the key and arms a new one delay ms out. -/
def debTrigger (delay : Nat) (k : String) (t : Nat) (st : DebounceState) :
    DebounceState :=
  let st := fireDue t st
  { pending := st.pending.filter (fun p => ¬ (p.1 = k)) ++ [(k, t + delay)]
    fired := st.fired }

/-- Run a trace of triggers (key, time), then let all remaining timers
fire. -/
def runDebounce (delay : Nat) : List (String × Nat) → DebounceState →
    DebounceState
  | [], st => ⟨[], st.fired ++ st.pending⟩
  | (k, t) :: rest, st => runDebounce delay rest (debTrigger delay k t st)

/-- The 300 ms delay of debouncedBranchUpdate in useGitWatcher.ts. -/
def branchUpdateDelayMs : Nat := 300

/-- The 500 ms delay of debouncedWorktreeRefresh in useGitWatcher.ts. -/
def worktreeRefreshDelayMs : Nat := 500

/-- The updateWorktreeBranch invocations produced by a trace of
debouncedBranchUpdate triggers (keyed by worktree path). -/
def branchUpdateRuns (events : List (String × Nat)) : List (String × Nat) :=
  (runDebounce branchUpdateDelayMs events ⟨[], []⟩).fired

/-- The refreshWorktrees invocations produced by a trace of
debouncedWorktreeRefresh triggers (keyed by repo path). -/
def worktreeRefreshRuns (events : List (String × Nat)) : List (String × Nat) :=
  (runDebounce worktreeRefreshDelayMs events ⟨[], []⟩).fired

/-! Embedding of the diff loader of src/hooks/useCodeReview.ts.  The hook
state the loader touches is the per-path diff cache and the in-flight
loading set; a backend diff fetch is recorded as the invoked command name
together with the worktree path and file path. -/

/-- Mirror of type DiffMode in useCodeReview.ts. -/
inductive DiffMode
  | local
  | branch
deriving DecidableEq, Repr

/-- Mirror of interface FileDiffData in src/types/index.ts. -/
structure FileDiffData where
  path : String
  patch : String
deriving DecidableEq, Repr

/-- The slice of the useCodeReview hook state that loadDiff reads and
writes. -/
structure ReviewState where
  worktreePath : Option String
  diffMode : DiffMode
  diffCache : List (String × FileDiffData)
  loadingDiffs : List String
deriving DecidableEq, Repr

/-- A backend diff fetch issued by loadDiff: command, worktreePath,
filePath. -/
structure DiffFetch where
  command : String
  worktreePath : String
  filePath : String
deriving DecidableEq, Repr

/-- Membership-preserving insertion, the effect of new Set(prev).add(path)
on the in-flight set (a Set gains no duplicate). -/
def addLoading (path : String) (l : List String) : List String :=
  if path ∈ l then l else l ++ [path]

/-- Embedding of the synchronous part of loadDiff in useCodeReview.ts, up
to its awaited invoke.  The guard reads diffCache and loadingDiffs from
the useCallback closure's render snapshot snap, not from the live state:
setLoadingDiffs only queues a functional update, which React applies to
the authoritative current state cur and which becomes visible to the
guard only through a closure re-created on a later render.  So a second
call through the same closure re-reads the unchanged snap.  The worktree
path is read through worktreePathRef.current, a ref kept equal to the
latest rendered value, embedded as cur.worktreePath.  The call returns
cur with its queued loading-set insertion applied, plus the fetch it
issued (none when no worktree is set, or when the snapshot already holds
the path in the diff cache or in the in-flight set). -/
def loadDiffStart (path : String) (snap cur : ReviewState) :
    ReviewState × List DiffFetch :=
  match cur.worktreePath with
  | none => (cur, [])
  | some wt =>
    if (recordGet snap.diffCache path).isSome ∨ path ∈ snap.loadingDiffs then
      (cur, [])
    else
      let command := match snap.diffMode with
        | .local => "get_uncommitted_diff"
        | .branch => "get_file_diff"
      ({ cur with loadingDiffs := addLoading path cur.loadingDiffs },
        [⟨command, wt, path⟩])

/-- Embedding of the continuation of loadDiff after its awaited invoke
resolves: a successful fetch writes the diff into the cache, a failed one
writes the empty-patch placeholder; either way the path leaves the
in-flight set. -/
def loadDiffFinish (path : String) (outcome : Option FileDiffData)
    (s : ReviewState) : ReviewState :=
  let cached := match outcome with
    | some diff => diff
    | none => ⟨path, ""⟩
  { s with
      diffCache := recordSet s.diffCache path cached
      loadingDiffs := s.loadingDiffs.filter (fun p => ¬ (p = path)) }

/-- Simulation relation between a full debounce run and the run of the
same trace restricted to one key k, with T a lower bound on all future
trigger times: the k-restricted fired-plus-pending trace agrees, the full
map holds at most one timer per key, a timer the full map still holds is
held identically by the restricted run, the restricted run holds only
k-timers, and a timer only the restricted run still holds has already
passed its deadline. -/
def projInv (k : String) (T : Nat) (stF stP : DebounceState) : Prop :=
  stP.fired ++ stP.pending
    = stF.fired.filter (fun p => p.1 = k)
      ++ stF.pending.filter (fun p => p.1 = k) ∧
  (stF.pending.filter (fun p => p.1 = k)).length ≤ 1 ∧
  (∀ d : Nat, stF.pending.filter (fun p => p.1 = k) = [(k, d)] →
    stP.pending = [(k, d)]) ∧
  (∀ p ∈ stP.pending, p.1 = k) ∧
  (stF.pending.filter (fun p => p.1 = k) = [] →
    ∀ p ∈ stP.pending, p.2 ≤ T)

/-! Concrete fixtures used to instantiate the theorems. -/

/-- A concrete worktree. -/
def sampleWorktree : WorktreeInfo :=
  ⟨"feature", "/repo/feature", some "feature", none, none⟩

/-- A second concrete worktree with a different path. -/
def sampleWorktreeB : WorktreeInfo :=
  ⟨"main", "/repo/main", some "main", none, none⟩

/-- The store state after selecting sampleWorktree from the initial state
with a successful spawn returning t1. -/
def sampleState : AppState :=
  (selectWorktree (.ok "t1") sampleWorktree initialAppState).state

/-- The entry sampleState holds for sampleWorktree. -/
def sampleEntry : WorktreeTerminals :=
  ⟨[⟨"t1", "/repo/feature", "feature"⟩], some "t1"⟩

/-- Concrete sessions (id, worktreePath, worktreeName). -/
def termA : TerminalInstance := ⟨"a", "/repo/feature", "feature"⟩

/-- A second concrete session. -/
def termB : TerminalInstance := ⟨"b", "/repo/feature", "feature"⟩

/-- A third concrete session. -/
def termC : TerminalInstance := ⟨"c", "/repo/feature", "feature"⟩

/-- A session whose id is the empty string (ids are backend-chosen). -/
def termEmptyId : TerminalInstance := ⟨"", "/repo/feature", "feature"⟩

/-- A store state with sessions a, b, c for the selected sampleWorktree
and b active. -/
def abcState : AppState :=
  { initialAppState with
      selectedWorktree := some sampleWorktree
      currentTerminals := [termA, termB, termC]
      currentActiveTerminalId := some "b"
      terminalsByWorktree :=
        [("/repo/feature", ⟨[termA, termB, termC], some "b"⟩)] }

/-- A store state whose last session has the empty string as id, reachable
by selectWorktree spawning a, addTerminal spawning the empty id and
setActiveTerminal a. -/
def emptyIdState : AppState :=
  { initialAppState with
      selectedWorktree := some sampleWorktree
      currentTerminals := [termA, termEmptyId]
      currentActiveTerminalId := some "a"
      terminalsByWorktree :=
        [("/repo/feature", ⟨[termA, termEmptyId], some "a"⟩)] }

/-- A concrete repository holding both sample worktrees. -/
def sampleRepo : Repository :=
  ⟨⟨"/repo", "repo"⟩, [sampleWorktree, sampleWorktreeB], true⟩

/-- The a, b, c state extended with the concrete repository. -/
def repoState : AppState := { abcState with repositories := [sampleRepo] }

/-- A concrete PR data cache entry stamped at t = 1000000 ms. -/
def samplePRCache : PRDataCache := ⟨none, none, 1000000⟩

/-- A store state holding samplePRCache for PR 7 of /repo. -/
def prState : AppState :=
  { initialAppState with
      prDataCache := [(prCacheKey "/repo" 7, samplePRCache)] }

/-- A concrete review-hook state with an empty diff cache and no fetch in
flight. -/
def sampleReview : ReviewState := ⟨some "/repo/feature", .local, [], []⟩

/-! Lemmas about the Record embedding. -/

theorem recordHas_false_iff {α : Type} (m : List (String × α)) (k : String) :
    recordHas m k = false ↔ ∀ p ∈ m, ¬ (p.1 = k) := by
  induction m with
  | nil => simp [recordHas]
  | cons p m ih => simp [recordHas, ih]

theorem recordGet_map_self {α : Type} (m : List (String × α)) (k : String)
    (v : α) :
    recordGet (m.map (fun p => if p.1 = k then (k, v) else p)) k
      = if recordHas m k then some v else none := by
  induction m with
  | nil => simp [recordGet, recordHas]
  | cons p m ih =>
    by_cases h : p.1 = k
    · simp [recordGet, recordHas, h]
    · simp [recordGet, recordHas, h, ih]

theorem recordGet_append_single {α : Type} (m : List (String × α))
    (k : String) (v : α) (h : recordHas m k = false) :
    recordGet (m ++ [(k, v)]) k = some v := by
  induction m with
  | nil => simp [recordGet]
  | cons p m ih =>
    simp only [recordHas, Bool.or_eq_false_iff, decide_eq_false_iff_not] at h
    simp only [List.cons_append, recordGet, h.1, if_neg]
    exact ih h.2

theorem recordGet_append_single_ne {α : Type} (m : List (String × α))
    (k k' : String) (v : α) (hne : ¬ (k = k')) :
    recordGet (m ++ [(k, v)]) k' = recordGet m k' := by
  induction m with
  | nil => simp [recordGet, hne]
  | cons p m ih =>
    by_cases hq : p.1 = k'
    · simp [recordGet, hq]
    · simp only [List.cons_append, recordGet, hq, if_neg]
      exact ih

theorem recordGet_recordSet_self {α : Type} (m : List (String × α))
    (k : String) (v : α) :
    recordGet (recordSet m k v) k = some v := by
  unfold recordSet
  by_cases h : recordHas m k
  · simp [h, recordGet_map_self]
  · simp only [Bool.not_eq_true] at h
    simp only [h, Bool.false_eq_true, if_neg]
    exact recordGet_append_single m k v h

theorem recordGet_recordSet_ne {α : Type} (m : List (String × α))
    (k k' : String) (v : α) (hne : ¬ (k' = k)) :
    recordGet (recordSet m k v) k' = recordGet m k' := by
  unfold recordSet
  by_cases h : recordHas m k
  · simp only [h, if_pos]
    clear h
    induction m with
    | nil => simp
    | cons p m ih =>
      simp only [List.map_cons]
      by_cases hp : p.1 = k
      · have hpk : ¬ (p.1 = k') := by
          intro he
          exact hne (by rw [← he, hp])
        have hkk : ¬ (k = k') := fun he => hne he.symm
        rw [if_pos hp]
        simp only [recordGet, hkk, if_neg, hpk]
        exact ih
      · rw [if_neg hp]
        by_cases hq : p.1 = k'
        · simp [recordGet, hq]
        · simp only [recordGet, hq, if_neg]
          exact ih
  · simp only [h, Bool.false_eq_true, if_neg]
    exact recordGet_append_single_ne m k k' v (fun he => hne he.symm)

theorem recordGet_some_mem {α : Type} {m : List (String × α)} {k : String}
    {v : α} (h : recordGet m k = some v) : (k, v) ∈ m := by
  induction m with
  | nil => simp [recordGet] at h
  | cons p m ih =>
    by_cases hp : p.1 = k
    · simp only [recordGet, hp, if_pos, Option.some.injEq] at h
      have hpe : p = (k, v) := by
        calc p = (p.1, p.2) := rfl
          _ = (k, v) := by rw [hp, h]
      rw [← hpe]
      exact List.mem_cons_self p m
    · simp only [recordGet, hp, if_neg] at h
      exact List.mem_cons_of_mem p (ih h)

theorem recordHas_of_get_some {α : Type} {m : List (String × α)}
    {k : String} {v : α} (h : recordGet m k = some v) :
    recordHas m k = true := by
  induction m with
  | nil => simp [recordGet] at h
  | cons p m ih =>
    by_cases hp : p.1 = k
    · simp [recordHas, hp]
    · simp only [recordGet, hp, if_neg] at h
      simp [recordHas, hp, ih h]

theorem mem_recordSet {α : Type} {m : List (String × α)} {k : String}
    {v : α} {p : String × α} (h : p ∈ recordSet m k v) :
    p = (k, v) ∨ p ∈ m := by
  unfold recordSet at h
  by_cases hh : recordHas m k
  · simp only [hh, if_pos, List.mem_map] at h
    obtain ⟨q, hq, hqe⟩ := h
    by_cases hqk : q.1 = k
    · left; simp only [hqk, if_pos] at hqe; exact hqe.symm
    · right; simp only [hqk, if_neg] at hqe; exact hqe ▸ hq
  · simp only [hh, Bool.false_eq_true, if_neg] at h
    rcases List.mem_append.mp h with h | h
    · exact Or.inr h
    · exact Or.inl (List.mem_singleton.mp h)

theorem recordSet_of_has {α : Type} {m : List (String × α)} {k : String}
    (v : α) (h : recordHas m k = true) :
    recordSet m k v = m.map (fun p => if p.1 = k then (k, v) else p) := by
  unfold recordSet
  rw [h]
  simp

theorem recordSet_of_not_has {α : Type} {m : List (String × α)} {k : String}
    (v : α) (h : recordHas m k = false) :
    recordSet m k v = m ++ [(k, v)] := by
  unfold recordSet
  rw [h]
  simp

theorem recordKeys_recordSet_nodup {α : Type} {m : List (String × α)}
    (k : String) (v : α) (h : (recordKeys m).Nodup) :
    (recordKeys (recordSet m k v)).Nodup := by
  cases hh : recordHas m k with
  | true =>
    rw [recordSet_of_has v hh]
    have heq : recordKeys (m.map (fun p => if p.1 = k then (k, v) else p))
        = recordKeys m := by
      unfold recordKeys
      rw [List.map_map]
      apply List.map_congr_left
      intro p _
      by_cases hp : p.1 = k
      · simp [hp]
      · simp [hp]
    rw [heq]; exact h
  | false =>
    have hk : k ∉ recordKeys m := by
      intro hmem
      unfold recordKeys at hmem
      obtain ⟨p, hp, hpe⟩ := List.mem_map.mp hmem
      exact (recordHas_false_iff m k).mp hh p hp hpe
    rw [recordSet_of_not_has v hh]
    unfold recordKeys
    rw [List.map_append]
    simp only [List.map_cons, List.map_nil]
    exact List.Nodup.append h (List.nodup_singleton k)
      (fun a ham hak => hk (by rwa [List.mem_singleton.mp hak] at ham))

theorem recordSet_eq_self {α : Type} {m : List (String × α)} {k : String}
    {v : α} (hnd : (recordKeys m).Nodup) (h : recordGet m k = some v) :
    recordSet m k v = m := by
  rw [recordSet_of_has v (recordHas_of_get_some h)]
  induction m with
  | nil => simp
  | cons p m ih =>
    simp only [recordKeys, List.map_cons, List.nodup_cons] at hnd
    by_cases hp : p.1 = k
    · have hv : p.2 = v := by
        simp only [recordGet, hp, if_pos, Option.some.injEq] at h
        exact h
      have hrest : ∀ q ∈ m, ¬ (q.1 = k) := by
        intro q hq he
        exact hnd.1 (List.mem_map.mpr ⟨q, hq, by rw [he, hp]⟩)
      simp only [List.map_cons, hp, if_pos, List.cons.injEq]
      constructor
      · calc (k, v) = (p.1, p.2) := by rw [hp, hv]
          _ = p := rfl
      · calc m.map (fun q => if q.1 = k then (k, v) else q)
            = m.map id := by
              apply List.map_congr_left
              intro q hq
              simp [hrest q hq]
          _ = m := List.map_id m
    · simp only [recordGet, hp, if_neg] at h
      simp only [List.map_cons, List.cons.injEq]
      refine ⟨by rw [if_neg hp], ih hnd.2 h⟩

/-! Invariant preservation for the session multiplexer. -/

theorem getLast?_some_mem {α : Type} {l : List α} {a : α}
    (h : l.getLast? = some a) : a ∈ l := by
  obtain ⟨hne, he⟩ := List.mem_getLast?_eq_getLast
    (show a ∈ l.getLast? from h)
  rw [he]
  exact List.getLast_mem hne

theorem entryInvB_some_iff (l : List TerminalInstance) (a : String) :
    entryInvB ⟨l, some a⟩ = true ↔ ∃ t ∈ l, t.id = a := by
  simp [entryInvB]

theorem entriesInvB_iff (s : AppState) :
    entriesInvB s = true ↔
      ∀ p ∈ s.terminalsByWorktree, entryInvB p.2 = true := by
  simp [entriesInvB]

/-- The invariant of the fresh single-session entry installed by the spawn
branch of selectWorktree. -/
theorem inv_installFresh (w : WorktreeInfo) (tid : String) (s : AppState)
    (h : Inv s) :
    Inv { s with
        selectedWorktree := some w
        currentTerminals := [⟨tid, w.path, w.name⟩]
        currentActiveTerminalId := some tid
        terminalsByWorktree := recordSet s.terminalsByWorktree w.path
          ⟨[⟨tid, w.path, w.name⟩], some tid⟩ } := by
  obtain ⟨hent, hcur, hcoup, hnd⟩ := h
  refine ⟨?_, ?_, ?_, ?_⟩
  · rw [entriesInvB_iff]
    intro p hp
    rcases mem_recordSet hp with hp | hp
    · rw [hp]
      simp [entryInvB]
    · exact (entriesInvB_iff s).mp hent p hp
  · simp [currentInvB]
  · simp [couplingB, recordGet_recordSet_self]
  · exact recordKeys_recordSet_nodup _ _ hnd

theorem inv_selectWorktree (sp : SpawnOutcome) (w : WorktreeInfo)
    (s : AppState) (h : Inv s) : Inv (selectWorktree sp w s).state := by
  unfold selectWorktree
  by_cases hsel : (s.selectedWorktree.map WorktreeInfo.path) = some w.path
  · rw [if_pos hsel]
    exact h
  · rw [if_neg hsel]
    cases hget : recordGet s.terminalsByWorktree w.path with
    | some existing =>
      dsimp only
      by_cases hlen : existing.terminals.length > 0
      · rw [if_pos hlen]
        obtain ⟨hent, hcur, hcoup, hnd⟩ := h
        have hmem : (w.path, existing) ∈ s.terminalsByWorktree :=
          recordGet_some_mem hget
        have hexist : entryInvB existing = true :=
          (entriesInvB_iff s).mp hent (w.path, existing) hmem
        refine ⟨hent, ?_, ?_, hnd⟩
        · exact hexist
        · simp only [couplingB]
          rw [decide_eq_true_eq]
          rw [hget]
      · rw [if_neg hlen]
        cases sp with
        | err => exact h
        | ok tid => exact inv_installFresh w tid s h
    | none =>
      cases sp with
      | err => exact h
      | ok tid => exact inv_installFresh w tid s h

theorem inv_addTerminal (sp : SpawnOutcome) (s : AppState) (h : Inv s) :
    Inv (addTerminal sp s).state := by
  unfold addTerminal
  cases hsel : s.selectedWorktree with
  | none => exact h
  | some w =>
    cases sp with
    | err => exact h
    | ok tid =>
      obtain ⟨hent, hcur, hcoup, hnd⟩ := h
      have hpair : entryInvB
          ⟨s.currentTerminals ++ [⟨tid, w.path, w.name⟩], some tid⟩
            = true := by
        rw [entryInvB_some_iff]
        exact ⟨⟨tid, w.path, w.name⟩, by simp, rfl⟩
      refine ⟨?_, hpair, ?_, recordKeys_recordSet_nodup _ _ hnd⟩
      · rw [entriesInvB_iff]
        intro p hp
        rcases mem_recordSet hp with hp | hp
        · rw [hp]; exact hpair
        · exact (entriesInvB_iff s).mp hent p hp
      · simp [couplingB, recordGet_recordSet_self]

/-- addTerminalWithCommand applies the same local state transition as
addTerminal (they differ only in the backend call carrying the command). -/
theorem addTerminalWithCommand_state_eq (sp : SpawnOutcome)
    (command : String) (s : AppState) :
    (addTerminalWithCommand sp command s).state = (addTerminal sp s).state := by
  unfold addTerminalWithCommand addTerminal
  cases s.selectedWorktree with
  | none => rfl
  | some w => cases sp with
    | err => rfl
    | ok tid => rfl

theorem inv_addTerminalWithCommand (sp : SpawnOutcome) (command : String)
    (s : AppState) (h : Inv s) :
    Inv (addTerminalWithCommand sp command s).state := by
  rw [addTerminalWithCommand_state_eq]
  exact inv_addTerminal sp s h

theorem inv_removeTerminal (terminalId : String) (s : AppState)
    (h : Inv s) : Inv (removeTerminal terminalId s).1 := by
  unfold removeTerminal
  cases hsel : s.selectedWorktree with
  | none => exact h
  | some w =>
    obtain ⟨hent, hcur, hcoup, hnd⟩ := h
    set newTerminals :=
      s.currentTerminals.filter (fun t => ¬ (t.id = terminalId)) with hnt
    have hpair : entryInvB
        ⟨newTerminals,
          if s.currentActiveTerminalId = some terminalId
          then lastIdOrNull newTerminals
          else s.currentActiveTerminalId⟩ = true := by
      by_cases hact : s.currentActiveTerminalId = some terminalId
      · rw [if_pos hact]
        unfold lastIdOrNull
        cases hl : newTerminals.getLast? with
        | none => simp [entryInvB]
        | some t =>
          dsimp only
          by_cases hid : t.id = ""
          · simp [entryInvB, hid]
          · rw [if_neg hid, entryInvB_some_iff]
            exact ⟨t, getLast?_some_mem hl, rfl⟩
      · rw [if_neg hact]
        cases ha : s.currentActiveTerminalId with
        | none => simp [entryInvB]
        | some a =>
          rw [entryInvB_some_iff]
          have hc : ∃ t ∈ s.currentTerminals, t.id = a := by
            have := hcur
            simp only [currentInvB, ha] at this
            simpa using this
          obtain ⟨t, htm, htid⟩ := hc
          refine ⟨t, ?_, htid⟩
          rw [hnt]
          rw [List.mem_filter]
          refine ⟨htm, ?_⟩
          rw [decide_eq_true_eq]
          intro he
          rw [ha] at hact
          exact hact (by rw [← htid, he])
    refine ⟨?_, hpair, ?_, recordKeys_recordSet_nodup _ _ hnd⟩
    · rw [entriesInvB_iff]
      intro p hp
      rcases mem_recordSet hp with hp | hp
      · rw [hp]; exact hpair
      · exact (entriesInvB_iff s).mp hent p hp
    · simp [couplingB, recordGet_recordSet_self]

theorem inv_setActiveTerminal (terminalId : String) (s : AppState)
    (h : Inv s) (hmem : ∃ t ∈ s.currentTerminals, t.id = terminalId) :
    Inv (setActiveTerminal terminalId s) := by
  unfold setActiveTerminal
  cases hsel : s.selectedWorktree with
  | none => exact h
  | some w =>
    dsimp only
    obtain ⟨hent, hcur, hcoup, hnd⟩ := h
    have hget : recordGet s.terminalsByWorktree w.path
        = some ⟨s.currentTerminals, s.currentActiveTerminalId⟩ := by
      have := hcoup
      simp only [couplingB, hsel] at this
      exact of_decide_eq_true this
    rw [hget]
    have hpair : entryInvB ⟨s.currentTerminals, some terminalId⟩ = true := by
      rw [entryInvB_some_iff]
      exact hmem
    refine ⟨?_, hpair, ?_, recordKeys_recordSet_nodup _ _ hnd⟩
    · rw [entriesInvB_iff]
      intro p hp
      rcases mem_recordSet hp with hp | hp
      · rw [hp]; exact hpair
      · exact (entriesInvB_iff s).mp hent p hp
    · simp [couplingB, recordGet_recordSet_self]

/-! Behavior of selectWorktree on a worktree that already has a non-empty
entry. -/

/-- Selecting a worktree with an existing non-empty entry issues no
backend call, makes its stored sessions and active id current, and leaves
its stored entry untouched. -/
theorem select_existing (s : AppState) (w : WorktreeInfo)
    (e : WorktreeTerminals) (sp : SpawnOutcome) (hInv : Inv s)
    (hget : recordGet s.terminalsByWorktree w.path = some e)
    (hne : e.terminals.length > 0) :
    (selectWorktree sp w s).calls = [] ∧
    (selectWorktree sp w s).state.currentTerminals = e.terminals ∧
    (selectWorktree sp w s).state.currentActiveTerminalId
      = e.activeTerminalId ∧
    recordGet (selectWorktree sp w s).state.terminalsByWorktree w.path
      = some e := by
  obtain ⟨hent, hcur, hcoup, hnd⟩ := hInv
  unfold selectWorktree
  by_cases hsel : (s.selectedWorktree.map WorktreeInfo.path) = some w.path
  · rw [if_pos hsel]
    cases hs : s.selectedWorktree with
    | none =>
      rw [hs] at hsel
      exact Option.noConfusion hsel
    | some sw =>
      rw [hs] at hsel
      simp only [Option.map_some', Option.some.injEq] at hsel
      have hc : recordGet s.terminalsByWorktree sw.path
          = some ⟨s.currentTerminals, s.currentActiveTerminalId⟩ := by
        have := hcoup
        simp only [couplingB, hs] at this
        exact of_decide_eq_true this
      rw [hsel] at hc
      rw [hget] at hc
      have he : e = ⟨s.currentTerminals, s.currentActiveTerminalId⟩ :=
        Option.some.inj hc
      refine ⟨rfl, ?_, ?_, hget⟩
      · rw [he]
      · rw [he]
  · rw [if_neg hsel, hget]
    dsimp only
    rw [if_pos hne]
    exact ⟨rfl, rfl, rfl, hget⟩

/-- After selecting a worktree with an existing non-empty entry, the
selected worktree path is that worktree's path. -/
theorem select_existing_selected (s : AppState) (w : WorktreeInfo)
    (e : WorktreeTerminals) (sp : SpawnOutcome)
    (hget : recordGet s.terminalsByWorktree w.path = some e)
    (hne : e.terminals.length > 0) :
    ((selectWorktree sp w s).state.selectedWorktree.map WorktreeInfo.path)
      = some w.path := by
  unfold selectWorktree
  by_cases hsel : (s.selectedWorktree.map WorktreeInfo.path) = some w.path
  · rw [if_pos hsel]
    exact hsel
  · rw [if_neg hsel, hget]
    dsimp only
    rw [if_pos hne]
    rfl

/-- Selecting a worktree that is already selected returns the state
unchanged with no backend call. -/
theorem select_already (s : AppState) (w : WorktreeInfo) (sp : SpawnOutcome)
    (hsel : (s.selectedWorktree.map WorktreeInfo.path) = some w.path) :
    (selectWorktree sp w s).state = s ∧ (selectWorktree sp w s).calls = [] := by
  unfold selectWorktree
  rw [if_pos hsel]
  exact ⟨rfl, rfl⟩

/-- selectWorktree touches no entry of terminalsByWorktree other than the
selected worktree's own path. -/
theorem select_frame_get (sp : SpawnOutcome) (w : WorktreeInfo)
    (s : AppState) (k : String) (hk : ¬ (k = w.path)) :
    recordGet (selectWorktree sp w s).state.terminalsByWorktree k
      = recordGet s.terminalsByWorktree k := by
  unfold selectWorktree
  by_cases hsel : (s.selectedWorktree.map WorktreeInfo.path) = some w.path
  · rw [if_pos hsel]
  · rw [if_neg hsel]
    cases hget : recordGet s.terminalsByWorktree w.path with
    | some existing =>
      dsimp only
      by_cases hlen : existing.terminals.length > 0
      · rw [if_pos hlen]
      · rw [if_neg hlen]
        cases sp with
        | err => rfl
        | ok tid => exact recordGet_recordSet_ne _ _ _ _ hk
    | none =>
      cases sp with
      | err => rfl
      | ok tid => exact recordGet_recordSet_ne _ _ _ _ hk

/-! Claim C1. -/

/-- C1 counterexample: the claim as stated fails for setActiveTerminal.
From the reachable state obtained by selecting a fresh worktree (one
session with id t1), calling setActiveTerminal with the id z, which is in
no session list, leaves the workspace entry with activeTerminalId z while
no session has that id, violating the invariant. -/
theorem C1_counterexample :
    entriesInvB (setActiveTerminal "z"
      (selectWorktree (.ok "t1") sampleWorktree initialAppState).state)
      = false := by decide

/-- C1 (amended): for every store state satisfying the multiplexer
invariant (every workspace entry's activeTerminalId is null or the id of a
listed session, the current list mirrors the selected entry, keys are
unique), the invariant is preserved by selectWorktree, addTerminal,
addTerminalWithCommand and removeTerminal unconditionally, and by
setActiveTerminal provided its argument is the id of a current session —
the proviso the unguarded write in setActiveTerminal forces. -/
theorem C1_invariant_preservation (s : AppState) (h : Inv s) :
    (∀ s' : AppState, Inv s' →
      ∀ p ∈ s'.terminalsByWorktree, entryInvB p.2 = true) ∧
    (∀ sp w, Inv (selectWorktree sp w s).state) ∧
    (∀ sp, Inv (addTerminal sp s).state) ∧
    (∀ sp c, Inv (addTerminalWithCommand sp c s).state) ∧
    (∀ tid, Inv (removeTerminal tid s).1) ∧
    (∀ tid, (∃ t ∈ s.currentTerminals, t.id = tid) →
      Inv (setActiveTerminal tid s)) :=
  ⟨fun s' h' => (entriesInvB_iff s').mp h'.1,
   fun sp w => inv_selectWorktree sp w s h,
   fun sp => inv_addTerminal sp s h,
   fun sp c => inv_addTerminalWithCommand sp c s h,
   fun tid => inv_removeTerminal tid s h,
   fun tid hm => inv_setActiveTerminal tid s h hm⟩

/-- C1 witness: the amended theorem applied at the initial store state and
a concrete selection. -/
theorem C1_witness :
    Inv (selectWorktree (.ok "t1") sampleWorktree initialAppState).state :=
  (C1_invariant_preservation initialAppState (by decide)).2.1
    (.ok "t1") sampleWorktree

/-! Claim C2. -/

/-- C2: for a workspace w whose stored entry e has at least one session,
in any invariant store state: (1) selectWorktree issues no backend call,
makes the stored sessions and active id current (also when w is already
selected) and leaves the stored entry untouched; (2) a second consecutive
selectWorktree of w returns an identical state with no backend call; (3)
selecting any workspace with a different path and then w again restores
exactly e's sessions and active id, with no backend call issued by the
second selection of w. -/
theorem C2_select_idempotent_restores (s : AppState) (w : WorktreeInfo)
    (e : WorktreeTerminals) (hInv : Inv s)
    (hget : recordGet s.terminalsByWorktree w.path = some e)
    (hne : e.terminals.length > 0) :
    (∀ sp, (selectWorktree sp w s).calls = [] ∧
      (selectWorktree sp w s).state.currentTerminals = e.terminals ∧
      (selectWorktree sp w s).state.currentActiveTerminalId
        = e.activeTerminalId ∧
      recordGet (selectWorktree sp w s).state.terminalsByWorktree w.path
        = some e) ∧
    (∀ sp sp',
      (selectWorktree sp' w (selectWorktree sp w s).state).state
        = (selectWorktree sp w s).state ∧
      (selectWorktree sp' w (selectWorktree sp w s).state).calls = []) ∧
    (∀ sp' sp'' (w' : WorktreeInfo), ¬ (w'.path = w.path) →
      (selectWorktree sp'' w (selectWorktree sp' w' s).state).calls = [] ∧
      (selectWorktree sp'' w
        (selectWorktree sp' w' s).state).state.currentTerminals
          = e.terminals ∧
      (selectWorktree sp'' w
        (selectWorktree sp' w' s).state).state.currentActiveTerminalId
          = e.activeTerminalId ∧
      recordGet (selectWorktree sp'' w
        (selectWorktree sp' w' s).state).state.terminalsByWorktree w.path
          = some e) := by
  refine ⟨fun sp => select_existing s w e sp hInv hget hne,
    fun sp sp' => ?_, fun sp' sp'' w' hne' => ?_⟩
  · have hsel1 := select_existing_selected s w e sp hget hne
    exact select_already _ w sp' hsel1
  · have hInv1 : Inv (selectWorktree sp' w' s).state :=
      inv_selectWorktree sp' w' s hInv
    have hget1 : recordGet
        (selectWorktree sp' w' s).state.terminalsByWorktree w.path
          = some e := by
      rw [select_frame_get sp' w' s w.path (fun he => hne' he.symm)]
      exact hget
    exact select_existing _ w e sp'' hInv1 hget1 hne

/-- C2 witness: the theorem applied at the concrete state holding one
session t1 for sampleWorktree, selecting sampleWorktreeB in between. -/
theorem C2_witness :
    (selectWorktree .err sampleWorktree
      (selectWorktree .err sampleWorktreeB sampleState).state).calls = [] ∧
    (selectWorktree .err sampleWorktree
      (selectWorktree .err sampleWorktreeB
        sampleState).state).state.currentTerminals
          = sampleEntry.terminals ∧
    (selectWorktree .err sampleWorktree
      (selectWorktree .err sampleWorktreeB
        sampleState).state).state.currentActiveTerminalId
          = sampleEntry.activeTerminalId ∧
    recordGet (selectWorktree .err sampleWorktree
      (selectWorktree .err sampleWorktreeB
        sampleState).state).state.terminalsByWorktree sampleWorktree.path
          = some sampleEntry :=
  (C2_select_idempotent_restores sampleState sampleWorktree sampleEntry
    (by decide) (by decide) (by decide)).2.2 .err .err sampleWorktreeB
    (by decide)

/-! Claim C3. -/

/-- C3 counterexample: from the state with sessions a and the empty-id
session, a active, removeTerminal a leaves one session yet the active id
becomes null, not the last remaining session's id: the or-null coercion in
the source maps the empty-string id to null. -/
theorem C3_counterexample :
    (removeTerminal "a" emptyIdState).1.currentTerminals = [termEmptyId] ∧
    (removeTerminal "a" emptyIdState).1.currentActiveTerminalId = none := by
  decide

/-- C3 (amended): with a worktree selected, removeTerminal filters the id
out of the session list; if the removed id was active, the new active id
is the id of the last remaining session in list order provided that id is
non-empty (an empty-string id yields null through the or-null coercion),
and null if the list is now empty; if the removed id was not active the
active id is unchanged. -/
theorem C3_removal_promotion (s : AppState) (w : WorktreeInfo)
    (tid : String) (hsel : s.selectedWorktree = some w) :
    ((removeTerminal tid s).1.currentTerminals
      = s.currentTerminals.filter (fun t => ¬ (t.id = tid))) ∧
    (∀ t : TerminalInstance, s.currentActiveTerminalId = some tid →
      (s.currentTerminals.filter (fun t => ¬ (t.id = tid))).getLast?
        = some t →
      ¬ (t.id = "") →
      (removeTerminal tid s).1.currentActiveTerminalId = some t.id) ∧
    (s.currentActiveTerminalId = some tid →
      s.currentTerminals.filter (fun t => ¬ (t.id = tid)) = [] →
      (removeTerminal tid s).1.currentActiveTerminalId = none) ∧
    (¬ (s.currentActiveTerminalId = some tid) →
      (removeTerminal tid s).1.currentActiveTerminalId
        = s.currentActiveTerminalId) := by
  unfold removeTerminal
  rw [hsel]
  dsimp only
  refine ⟨rfl, ?_, ?_, ?_⟩
  · intro t hact hl hid
    rw [if_pos hact]
    unfold lastIdOrNull
    rw [hl]
    dsimp only
    rw [if_neg hid]
  · intro hact hl
    rw [if_pos hact]
    unfold lastIdOrNull
    rw [hl]
    rfl
  · intro hact
    rw [if_neg hact]

/-- C3 witness: the amended theorem applied at the a, b, c state with b
active: removing b promotes c, the last remaining session. -/
theorem C3_witness :
    (removeTerminal "b" abcState).1.currentActiveTerminalId = some "c" :=
  (C3_removal_promotion abcState sampleWorktree "b" rfl).2.1 termC rfl
    (by decide) (by decide)

/-! Claim C7. -/

/-- C7: when the spawn issued by selectWorktree (reached when the worktree
is not already selected and has no non-empty stored entry) or by
addTerminal or addTerminalWithCommand (reached when a worktree is
selected) fails, the error propagates as the operation's result and the
store state is returned exactly as it was: no field changes. -/
theorem C7_spawn_failure_no_mutation (s : AppState) :
    (∀ w : WorktreeInfo,
      ¬ ((s.selectedWorktree.map WorktreeInfo.path) = some w.path) →
      (∀ e, recordGet s.terminalsByWorktree w.path = some e →
        ¬ (e.terminals.length > 0)) →
      (selectWorktree .err w s).state = s ∧
      (selectWorktree .err w s).result = .error ()) ∧
    (∀ w : WorktreeInfo, s.selectedWorktree = some w →
      (addTerminal .err s).state = s ∧
      (addTerminal .err s).result = .error ()) ∧
    (∀ (w : WorktreeInfo) (c : String), s.selectedWorktree = some w →
      (addTerminalWithCommand .err c s).state = s ∧
      (addTerminalWithCommand .err c s).result = .error ()) := by
  refine ⟨fun w hsel hno => ?_, fun w hsel => ?_, fun w c hsel => ?_⟩
  · unfold selectWorktree
    rw [if_neg hsel]
    cases hget : recordGet s.terminalsByWorktree w.path with
    | some existing =>
      dsimp only
      rw [if_neg (hno existing hget)]
      exact ⟨rfl, rfl⟩
    | none => exact ⟨rfl, rfl⟩
  · unfold addTerminal
    rw [hsel]
    exact ⟨rfl, rfl⟩
  · unfold addTerminalWithCommand
    rw [hsel]
    exact ⟨rfl, rfl⟩

/-- C7 witness: a failing spawn for sampleWorktreeB from the state that
has only sampleWorktree's entry leaves the state untouched and surfaces
the error. -/
theorem C7_witness :
    (selectWorktree .err sampleWorktreeB sampleState).state = sampleState ∧
    (selectWorktree .err sampleWorktreeB sampleState).result = .error () :=
  (C7_spawn_failure_no_mutation sampleState).1 sampleWorktreeB (by decide)
    (by
      intro e he
      rw [show recordGet sampleState.terminalsByWorktree sampleWorktreeB.path
        = none from by decide] at he
      exact Option.noConfusion he)

/-! Claim C9. -/

/-- C9: removeTerminal always issues exactly the close_terminal call for
the id, even when no worktree is selected (the local update is then
skipped entirely) or when the id is absent from the selected workspace's
session list (the filtered list and active id, and hence the whole state,
are then unchanged, given the store invariant). -/
theorem C9_remove_always_closes (s : AppState) (tid : String) :
    ((removeTerminal tid s).2 = [.closeTerminal tid]) ∧
    (s.selectedWorktree = none → (removeTerminal tid s).1 = s) ∧
    (∀ w : WorktreeInfo, Inv s → s.selectedWorktree = some w →
      (∀ t ∈ s.currentTerminals, ¬ (t.id = tid)) →
      (removeTerminal tid s).1 = s) := by
  refine ⟨?_, ?_, ?_⟩
  · unfold removeTerminal
    cases s.selectedWorktree with
    | none => rfl
    | some w => rfl
  · intro hsel
    unfold removeTerminal
    rw [hsel]
  · intro w hInv hsel hno
    obtain ⟨hent, hcur, hcoup, hnd⟩ := hInv
    have hcoup' : recordGet s.terminalsByWorktree w.path
        = some ⟨s.currentTerminals, s.currentActiveTerminalId⟩ := by
      have := hcoup
      simp only [couplingB, hsel] at this
      exact of_decide_eq_true this
    have hfilter : s.currentTerminals.filter (fun t => ¬ (t.id = tid))
        = s.currentTerminals :=
      List.filter_eq_self.mpr (fun a ha => by
        rw [decide_eq_true_eq]
        exact hno a ha)
    have hact : ¬ (s.currentActiveTerminalId = some tid) := by
      intro he
      have hex : ∃ t ∈ s.currentTerminals, t.id = tid := by
        have := hcur
        simp only [currentInvB, he] at this
        simpa using this
      obtain ⟨t, htm, htid⟩ := hex
      exact hno t htm htid
    unfold removeTerminal
    rw [hsel]
    dsimp only
    rw [hfilter, if_neg hact, recordSet_eq_self hnd hcoup', ← hsel]

/-- C9 witness: removing an id that is in no session list from the state
holding session t1 issues the close call and changes nothing. -/
theorem C9_witness :
    ((removeTerminal "zzz" sampleState).2
      = [.closeTerminal "zzz"]) ∧
    (removeTerminal "zzz" sampleState).1 = sampleState :=
  ⟨(C9_remove_always_closes sampleState "zzz").1,
   (C9_remove_always_closes sampleState "zzz").2.2 sampleWorktree
     (by decide) (by decide) (by decide)⟩

/-! Claim C8. -/

/-- C8: updateWorktreeBranch changes only the branch field of workspaces
whose path matches, everywhere they appear — in every repository's
worktree list and in the selectedWorktree snapshot — while every other
workspace, every other field (repository info, expansion, and all
non-branch worktree fields, preserved by the functional record update),
all terminal and session state and both PR caches are unchanged. -/
theorem C8_update_branch_frame (b : Option String) (p : String)
    (s : AppState) :
    ((updateWorktreeBranch b p s).terminalsByWorktree
      = s.terminalsByWorktree) ∧
    ((updateWorktreeBranch b p s).currentTerminals = s.currentTerminals) ∧
    ((updateWorktreeBranch b p s).currentActiveTerminalId
      = s.currentActiveTerminalId) ∧
    ((updateWorktreeBranch b p s).prStatusByBranch = s.prStatusByBranch) ∧
    ((updateWorktreeBranch b p s).prDataCache = s.prDataCache) ∧
    List.Forall₂ (fun r r' : Repository =>
        r'.info = r.info ∧ r'.isExpanded = r.isExpanded ∧
        List.Forall₂ (fun wt wt' : WorktreeInfo =>
            (wt.path = p → wt' = { wt with branch := b }) ∧
            (¬ (wt.path = p) → wt' = wt))
          r.worktrees r'.worktrees)
      s.repositories (updateWorktreeBranch b p s).repositories ∧
    (∀ sw : WorktreeInfo, s.selectedWorktree = some sw →
      (sw.path = p →
        (updateWorktreeBranch b p s).selectedWorktree
          = some { sw with branch := b }) ∧
      (¬ (sw.path = p) →
        (updateWorktreeBranch b p s).selectedWorktree = some sw)) ∧
    (s.selectedWorktree = none →
      (updateWorktreeBranch b p s).selectedWorktree = none) := by
  refine ⟨rfl, rfl, rfl, rfl, rfl, ?_, ?_, ?_⟩
  · unfold updateWorktreeBranch
    dsimp only
    rw [List.forall₂_map_right_iff]
    rw [List.forall₂_same]
    intro r hr
    refine ⟨rfl, rfl, ?_⟩
    rw [List.forall₂_map_right_iff]
    rw [List.forall₂_same]
    intro wt hwt
    constructor
    · intro hp
      rw [if_pos hp]
    · intro hp
      rw [if_neg hp]
  · intro sw hsw
    unfold updateWorktreeBranch
    dsimp only
    rw [hsw]
    constructor
    · intro hp
      dsimp only
      rw [if_pos hp]
    · intro hp
      dsimp only
      rw [if_neg hp]
  · intro hnone
    unfold updateWorktreeBranch
    dsimp only
    rw [hnone]

/-- C8 witness: the theorem applied at the concrete repository state,
updating the branch of the selected worktree's path. -/
theorem C8_witness :
    (updateWorktreeBranch (some "dev") "/repo/feature"
      repoState).selectedWorktree
      = some { sampleWorktree with branch := some "dev" } :=
  ((C8_update_branch_frame (some "dev") "/repo/feature" repoState).2.2.2.2.2.2.1
    sampleWorktree rfl).1 rfl

/-! Claim C4. -/

/-- C4: getPRDataCache returns a stored entry exactly when
now - lastUpdated is at most the 5-minute TTL, returns null for an absent
key, and never writes state (it is a pure read, so the too-old entry is
not removed); an entry stamped T is returned at T + 4min59s and absent at
T + 5min1s. -/
theorem C4_pr_cache_ttl (now T : Int) (rp : String) (n : Nat)
    (s : AppState) (c : PRDataCache) :
    (recordGet s.prDataCache (prCacheKey rp n) = some c →
      (getPRDataCache now rp n s = some c ↔
        now - c.lastUpdated ≤ CACHE_TTL_MS)) ∧
    (recordGet s.prDataCache (prCacheKey rp n) = none →
      getPRDataCache now rp n s = none) ∧
    (recordGet s.prDataCache (prCacheKey rp n) = some c →
      c.lastUpdated = T →
      getPRDataCache (T + 299000) rp n s = some c ∧
      getPRDataCache (T + 301000) rp n s = none) := by
  refine ⟨?_, ?_, ?_⟩
  · intro hget
    unfold getPRDataCache
    dsimp only
    rw [hget]
    dsimp only
    by_cases h : now - c.lastUpdated > CACHE_TTL_MS
    · rw [if_pos h]
      constructor
      · intro he
        exact Option.noConfusion he
      · intro hle
        exact absurd h (not_lt.mpr hle)
    · rw [if_neg h]
      constructor
      · intro _
        exact not_lt.mp h
      · intro _
        rfl
  · intro hget
    unfold getPRDataCache
    dsimp only
    rw [hget]
  · intro hget hT
    constructor
    · unfold getPRDataCache
      dsimp only
      rw [hget]
      dsimp only
      rw [if_neg (by rw [hT]; unfold CACHE_TTL_MS; omega)]
    · unfold getPRDataCache
      dsimp only
      rw [hget]
      dsimp only
      rw [if_pos (by rw [hT]; unfold CACHE_TTL_MS; omega)]

/-- C4 witness: the theorem applied at the concrete cached entry stamped
at t = 1000000. -/
theorem C4_witness :
    getPRDataCache 1299000 "/repo" 7 prState = some samplePRCache ∧
    getPRDataCache 1301000 "/repo" 7 prState = none :=
  (C4_pr_cache_ttl 0 1000000 "/repo" 7 prState samplePRCache).2.2
    (by decide) rfl

/-! Claim C10. -/

/-- C10: setPRDataCache with only one of the two payload fields supplied
preserves the existing value of the omitted field (null when no entry
existed for the key) and always stamps lastUpdated with the current time;
hence a partial write renews the 5-minute TTL of the whole entry,
including the preserved field, as observed through getPRDataCache. -/
theorem C10_partial_set_preserves (now : Int) (rp : String) (n : Nat)
    (s : AppState) :
    (∀ (c : Option PRChecksResult) (ex : PRDataCache),
      recordGet s.prDataCache (prCacheKey rp n) = some ex →
      recordGet (setPRDataCache now rp n ⟨some c, none⟩ s).prDataCache
        (prCacheKey rp n) = some ⟨c, ex.prDetails, now⟩) ∧
    (∀ c : Option PRChecksResult,
      recordGet s.prDataCache (prCacheKey rp n) = none →
      recordGet (setPRDataCache now rp n ⟨some c, none⟩ s).prDataCache
        (prCacheKey rp n) = some ⟨c, none, now⟩) ∧
    (∀ (d : Option PRDetailedInfo) (ex : PRDataCache),
      recordGet s.prDataCache (prCacheKey rp n) = some ex →
      recordGet (setPRDataCache now rp n ⟨none, some d⟩ s).prDataCache
        (prCacheKey rp n) = some ⟨ex.checksResult, d, now⟩) ∧
    (∀ d : Option PRDetailedInfo,
      recordGet s.prDataCache (prCacheKey rp n) = none →
      recordGet (setPRDataCache now rp n ⟨none, some d⟩ s).prDataCache
        (prCacheKey rp n) = some ⟨none, d, now⟩) ∧
    (∀ data : PRDataUpdate, ∃ e : PRDataCache,
      recordGet (setPRDataCache now rp n data s).prDataCache
        (prCacheKey rp n) = some e ∧ e.lastUpdated = now) ∧
    (∀ (c : Option PRChecksResult) (ex : PRDataCache) (now' : Int),
      recordGet s.prDataCache (prCacheKey rp n) = some ex →
      now' - now ≤ CACHE_TTL_MS →
      getPRDataCache now' rp n (setPRDataCache now rp n ⟨some c, none⟩ s)
        = some ⟨c, ex.prDetails, now⟩) := by
  have hset : ∀ (data : PRDataUpdate),
      recordGet (setPRDataCache now rp n data s).prDataCache
        (prCacheKey rp n)
        = some
          ⟨data.checksResult.getD
            ((recordGet s.prDataCache (prCacheKey rp n)).getD
              ⟨none, none, 0⟩).checksResult,
           data.prDetails.getD
            ((recordGet s.prDataCache (prCacheKey rp n)).getD
              ⟨none, none, 0⟩).prDetails,
           now⟩ := by
    intro data
    unfold setPRDataCache
    exact recordGet_recordSet_self _ _ _
  refine ⟨?_, ?_, ?_, ?_, ?_, ?_⟩
  · intro c ex hget
    rw [hset ⟨some c, none⟩, hget]
    rfl
  · intro c hget
    rw [hset ⟨some c, none⟩, hget]
    rfl
  · intro d ex hget
    rw [hset ⟨none, some d⟩, hget]
    rfl
  · intro d hget
    rw [hset ⟨none, some d⟩, hget]
    rfl
  · intro data
    exact ⟨_, hset data, rfl⟩
  · intro c ex now' hget hle
    unfold getPRDataCache
    dsimp only
    rw [hset ⟨some c, none⟩, hget]
    dsimp only
    rw [if_neg (not_lt.mpr hle)]
    rfl

/-- C10 witness: a partial write of only checksResult at t = 2000000 over
the entry stamped 1000000 keeps prDetails, restamps lastUpdated and is
served by getPRDataCache 5 minutes after the new stamp. -/
theorem C10_witness :
    getPRDataCache 2300000 "/repo" 7
      (setPRDataCache 2000000 "/repo" 7 ⟨some none, none⟩ prState)
      = some ⟨none, samplePRCache.prDetails, 2000000⟩ :=
  (C10_partial_set_preserves 2000000 "/repo" 7 prState).2.2.2.2.2
    none samplePRCache 2300000 (by decide) (by decide)

/-! Claim C6. -/

/-- C6 counterexample: two loadDiff calls for the same fresh path through
the same useCallback closure, before the first fetch resolves, both read
the closure's unchanged snapshot of loadingDiffs and both pass the guard:
two backend fetches are issued, not exactly one. -/
theorem C6_counterexample :
    (loadDiffStart "src/a.ts" sampleReview sampleReview).2.length
      + (loadDiffStart "src/a.ts" sampleReview
          (loadDiffStart "src/a.ts" sampleReview sampleReview).1).2.length
      = 2 := by decide

/-- C6 (amended): calling loadDiff twice for the same path that the
observed snapshot holds neither in the diff cache nor in the in-flight
set issues exactly 1 backend diff fetch when the second call runs through
a closure re-created after the first call's queued loading-set update was
applied (a later render): the first call fetches, the second is a no-op.
Two calls through the same render closure each issue a fetch (2 in
total), because the guard reads the stale snapshot.  A call whose
observed snapshot already holds the path in the diff cache or in the
in-flight set never starts a fetch. -/
theorem C6_diff_fetch_per_snapshot (s : ReviewState) (path : String) :
    (∀ wt : String, s.worktreePath = some wt →
      recordGet s.diffCache path = none →
      ¬ (path ∈ s.loadingDiffs) →
      ((loadDiffStart path s s).2.length = 1 ∧
       (loadDiffStart path (loadDiffStart path s s).1
          (loadDiffStart path s s).1).2 = [] ∧
       (loadDiffStart path s s).2.length
         + (loadDiffStart path (loadDiffStart path s s).1
             (loadDiffStart path s s).1).2.length = 1)) ∧
    (∀ wt : String, s.worktreePath = some wt →
      recordGet s.diffCache path = none →
      ¬ (path ∈ s.loadingDiffs) →
      (loadDiffStart path s s).2.length
        + (loadDiffStart path s (loadDiffStart path s s).1).2.length
          = 2) ∧
    (∀ cur : ReviewState,
      (recordGet s.diffCache path).isSome ∨ path ∈ s.loadingDiffs →
      (loadDiffStart path s cur).2 = []) := by
  have hmain : ∀ wt : String, s.worktreePath = some wt →
      recordGet s.diffCache path = none →
      ¬ (path ∈ s.loadingDiffs) →
      loadDiffStart path s s
        = ({ s with loadingDiffs := s.loadingDiffs ++ [path] },
           [⟨match s.diffMode with
              | .local => "get_uncommitted_diff"
              | .branch => "get_file_diff", wt, path⟩]) := by
    intro wt hwt hcache hload
    have hguard : ¬ ((recordGet s.diffCache path).isSome
        ∨ path ∈ s.loadingDiffs) := by
      intro hor
      rcases hor with h | h
      · rw [hcache] at h
        exact Bool.noConfusion h
      · exact hload h
    unfold loadDiffStart
    rw [hwt]
    dsimp only
    rw [if_neg hguard]
    unfold addLoading
    rw [if_neg hload]
  refine ⟨?_, ?_, ?_⟩
  · intro wt hwt hcache hload
    have h1 := hmain wt hwt hcache hload
    have h2 : (loadDiffStart path (loadDiffStart path s s).1
        (loadDiffStart path s s).1).2 = [] := by
      rw [h1]
      unfold loadDiffStart
      dsimp only
      rw [hwt]
      dsimp only
      rw [if_pos (Or.inr (List.mem_append.mpr (Or.inr (by simp))))]
    refine ⟨by rw [h1]; rfl, h2, by rw [h2, h1]; rfl⟩
  · intro wt hwt hcache hload
    have h1 := hmain wt hwt hcache hload
    have hguard : ¬ ((recordGet s.diffCache path).isSome
        ∨ path ∈ s.loadingDiffs) := by
      intro hor
      rcases hor with h | h
      · rw [hcache] at h
        exact Bool.noConfusion h
      · exact hload h
    have h3 : (loadDiffStart path s (loadDiffStart path s s).1).2.length
        = 1 := by
      rw [h1]
      unfold loadDiffStart
      dsimp only
      rw [hwt]
      dsimp only
      rw [if_neg hguard]
      rfl
    rw [h3, h1]
    rfl
  · intro cur hor
    unfold loadDiffStart
    cases hwt : cur.worktreePath with
    | none => rfl
    | some wt =>
      dsimp only
      rw [if_pos hor]

/-- C6 witness: the amended theorem's across-renders conjunct applied at
the concrete empty review state: one fetch in total when the second call
observes the applied update. -/
theorem C6_witness :
    (loadDiffStart "src/a.ts" sampleReview sampleReview).2.length = 1 ∧
    (loadDiffStart "src/a.ts"
      (loadDiffStart "src/a.ts" sampleReview sampleReview).1
      (loadDiffStart "src/a.ts" sampleReview sampleReview).1).2 = [] ∧
    (loadDiffStart "src/a.ts" sampleReview sampleReview).2.length
      + (loadDiffStart "src/a.ts"
          (loadDiffStart "src/a.ts" sampleReview sampleReview).1
          (loadDiffStart "src/a.ts" sampleReview sampleReview).1).2.length
      = 1 :=
  (C6_diff_fetch_per_snapshot sampleReview "src/a.ts").1 "/repo/feature" rfl
    (by decide) (by decide)

/-! Debounce lemmas (claim C5). -/

theorem filter_comm {α : Type} (p q : α → Bool) (l : List α) :
    (l.filter q).filter p = (l.filter p).filter q := by
  rw [List.filter_filter, List.filter_filter]
  apply List.filter_congr
  intro a _
  exact Bool.and_comm (p a) (q a)

theorem length_le_one_singleton {α : Type} {l : List α} {a : α}
    (hlen : l.length ≤ 1) (ha : a ∈ l) : l = [a] := by
  cases l with
  | nil => cases ha
  | cons x xs =>
    cases xs with
    | nil => rw [List.mem_singleton.mp ha]
    | cons y ys =>
      exfalso
      simp only [List.length_cons] at hlen
      omega

theorem mem_keyFilter_fst {k : String} {l : List (String × Nat)}
    {p : String × Nat} (hp : p ∈ l.filter (fun q => q.1 = k)) :
    p.1 = k := by
  have := (List.mem_filter.mp hp).2
  exact of_decide_eq_true this

theorem keyFilter_cases (k : String) (l : List (String × Nat))
    (hlen : (l.filter (fun p => p.1 = k)).length ≤ 1) :
    l.filter (fun p => p.1 = k) = [] ∨
    ∃ d, l.filter (fun p => p.1 = k) = [(k, d)] := by
  cases hx : l.filter (fun p => p.1 = k) with
  | nil => exact Or.inl rfl
  | cons p rest =>
    have hp : p.1 = k := by
      apply mem_keyFilter_fst (l := l)
      rw [hx]
      exact List.mem_cons_self p rest
    have hrest : rest = [] := by
      rw [hx] at hlen
      simp only [List.length_cons] at hlen
      cases rest with
      | nil => rfl
      | cons z zs =>
        exfalso
        simp only [List.length_cons] at hlen
        omega
    refine Or.inr ⟨p.2, ?_⟩
    rw [hrest]
    have hpe : p = (k, p.2) := by
      calc p = (p.1, p.2) := rfl
        _ = (k, p.2) := by rw [hp]
    rw [← hpe]

/-- The k-part of the pending map after a trigger for a different key
is the not-yet-due k-part of the old pending map. -/
theorem debTrigger_pending_ne (delay : Nat) (k k' : String) (t : Nat)
    (st : DebounceState) (hne : ¬ (k' = k)) :
    (debTrigger delay k' t st).pending.filter (fun p => p.1 = k)
      = (st.pending.filter (fun p => p.1 = k)).filter
          (fun p => ¬ (p.2 ≤ t)) := by
  unfold debTrigger fireDue
  dsimp only
  rw [List.filter_append]
  have h0 : ([(k', t + delay)].filter (fun p : String × Nat => p.1 = k))
      = [] := by
    simp [hne]
  rw [h0, List.append_nil, filter_comm]
  have h1 : ((st.pending.filter (fun p => ¬ (p.2 ≤ t))).filter
      (fun p => p.1 = k)).filter (fun p => ¬ (p.1 = k')) =
      (st.pending.filter (fun p => ¬ (p.2 ≤ t))).filter
        (fun p => p.1 = k) := by
    apply List.filter_eq_self.mpr
    intro a ha
    have hak : a.1 = k := mem_keyFilter_fst ha
    rw [decide_eq_true_eq]
    intro he
    exact hne (he.symm.trans hak)
  rw [h1, filter_comm]

/-- The k-part of the fired list after any trigger grows by the now-due
k-part of the old pending map. -/
theorem debTrigger_fired_filter (delay : Nat) (k k' : String) (t : Nat)
    (st : DebounceState) :
    (debTrigger delay k' t st).fired.filter (fun p => p.1 = k)
      = st.fired.filter (fun p => p.1 = k)
        ++ (st.pending.filter (fun p => p.1 = k)).filter
            (fun p => p.2 ≤ t) := by
  unfold debTrigger fireDue
  dsimp only
  rw [List.filter_append, filter_comm]

/-- The k-part of the pending map after a trigger for k itself is exactly
the fresh timer. -/
theorem debTrigger_pending_eq (delay : Nat) (k : String) (t : Nat)
    (st : DebounceState) :
    (debTrigger delay k t st).pending.filter (fun p => p.1 = k)
      = [(k, t + delay)] := by
  unfold debTrigger fireDue
  dsimp only
  rw [List.filter_append]
  have h0 : (((st.pending.filter (fun p => ¬ (p.2 ≤ t))).filter
      (fun p => ¬ (p.1 = k))).filter (fun p => p.1 = k)) = [] := by
    apply List.filter_eq_nil_iff.mpr
    intro a ha
    have := (List.mem_filter.mp ha).2
    have hne := of_decide_eq_true this
    rw [decide_eq_true_eq]
    intro hk
    exact hne hk
  rw [h0, List.nil_append]
  simp

/-- A trigger for k on a state whose pending timers all have key k leaves
exactly the fresh timer pending. -/
theorem debTrigger_pending_allk (delay : Nat) (k : String) (t : Nat)
    (st : DebounceState) (hall : ∀ p ∈ st.pending, p.1 = k) :
    (debTrigger delay k t st).pending = [(k, t + delay)] := by
  unfold debTrigger fireDue
  dsimp only
  have h0 : ((st.pending.filter (fun p => ¬ (p.2 ≤ t))).filter
      (fun p => ¬ (p.1 = k))) = [] := by
    apply List.filter_eq_nil_iff.mpr
    intro a ha
    have ham : a ∈ st.pending := List.mem_of_mem_filter ha
    rw [decide_eq_true_eq]
    intro hk
    exact hk (hall a ham)
  rw [h0, List.nil_append]

/-- Simulation step: a trigger for a key other than k. -/
theorem projInv_step_ne (delay : Nat) (k : String) (T : Nat)
    (stF stP : DebounceState) (k' : String) (t : Nat)
    (hne : ¬ (k' = k)) (hT : T ≤ t) (h : projInv k T stF stP) :
    projInv k t (debTrigger delay k' t stF) stP := by
  obtain ⟨h1, h2, h3, h4, h5⟩ := h
  have hpend := debTrigger_pending_ne delay k k' t stF hne
  have hfired := debTrigger_fired_filter delay k k' t stF
  rcases keyFilter_cases k stF.pending h2 with hx | ⟨d, hx⟩
  · refine ⟨?_, ?_, ?_, h4, ?_⟩
    · rw [hfired, hpend, hx]
      simp only [List.filter_nil, List.append_nil]
      rw [h1, hx, List.append_nil]
    · rw [hpend, hx]
      simp
    · intro d hd
      rw [hpend, hx] at hd
      simp at hd
    · intro _ p hp
      exact le_trans (h5 hx p hp) hT
  · by_cases hd : d ≤ t
    · -- the k timer fires at this trigger
      have hdue : (stF.pending.filter (fun p => p.1 = k)).filter
          (fun p => p.2 ≤ t) = [(k, d)] := by
        rw [hx]
        simp [hd]
      have hnotdue : (stF.pending.filter (fun p => p.1 = k)).filter
          (fun p => ¬ (p.2 ≤ t)) = [] := by
        rw [hx]
        simp [hd]
      refine ⟨?_, ?_, ?_, h4, ?_⟩
      · rw [hfired, hpend, hdue, hnotdue, List.append_nil, h1, hx]
      · rw [hpend, hnotdue]
        simp
      · intro d' hd'
        rw [hpend, hnotdue] at hd'
        simp at hd'
      · intro _ p hp
        have := h3 d hx
        rw [this] at hp
        have hpe : p = (k, d) := List.mem_singleton.mp hp
        rw [hpe]
        exact hd
    · -- the k timer survives this trigger
      have hdue : (stF.pending.filter (fun p => p.1 = k)).filter
          (fun p => p.2 ≤ t) = [] := by
        rw [hx]
        simp [hd]
      have hnotdue : (stF.pending.filter (fun p => p.1 = k)).filter
          (fun p => ¬ (p.2 ≤ t)) = [(k, d)] := by
        rw [hx]
        simp only [List.filter_cons, List.filter_nil, decide_eq_true_eq]
        rw [if_pos hd]
      refine ⟨?_, ?_, ?_, h4, ?_⟩
      · rw [hfired, hpend, hdue, hnotdue, List.append_nil, h1, hx]
      · rw [hpend, hnotdue]
        simp
      · intro d' hd'
        rw [hpend, hnotdue] at hd'
        have : d = d' := by
          have := List.cons.inj hd'
          exact (Prod.mk.inj this.1).2
        rw [← this]
        exact h3 d hx
      · intro hnil
        rw [hpend, hnotdue] at hnil
        exact absurd hnil (by simp)

/-- Simulation step: a trigger for k itself, taken by both runs. -/
theorem projInv_step_eq (delay : Nat) (k : String) (T : Nat)
    (stF stP : DebounceState) (t : Nat)
    (hT : T ≤ t) (h : projInv k T stF stP) :
    projInv k t (debTrigger delay k t stF) (debTrigger delay k t stP) := by
  obtain ⟨h1, h2, h3, h4, h5⟩ := h
  have hpendF := debTrigger_pending_eq delay k t stF
  have hfiredF := debTrigger_fired_filter delay k k t stF
  have hpendP := debTrigger_pending_allk delay k t stP h4
  have hfiredP : (debTrigger delay k t stP).fired
      = stP.fired ++ stP.pending.filter (fun p => p.2 ≤ t) := by
    unfold debTrigger fireDue
    dsimp only
  refine ⟨?_, ?_, ?_, ?_, ?_⟩
  · rw [hpendF, hfiredF, hpendP, hfiredP]
    congr 1
    rcases keyFilter_cases k stF.pending h2 with hx | ⟨d, hx⟩
    · have hall : stP.pending.filter (fun p => p.2 ≤ t) = stP.pending := by
        apply List.filter_eq_self.mpr
        intro a ha
        rw [decide_eq_true_eq]
        exact le_trans (h5 hx a ha) hT
      rw [hall, h1, hx]
      simp
    · have hP := h3 d hx
      have hfirEq : stP.fired = stF.fired.filter (fun p => p.1 = k) := by
        have := h1
        rw [hx, hP] at this
        exact List.append_cancel_right this
      rw [hP, hfirEq, hx]
  · rw [hpendF]
    simp
  · intro d hd
    rw [hpendF] at hd
    have : t + delay = d := (Prod.mk.inj (List.cons.inj hd).1).2
    rw [hpendP, this]
  · rw [hpendP]
    intro p hp
    have hpe : p = (k, t + delay) := List.mem_singleton.mp hp
    rw [hpe]
  · intro hnil
    rw [hpendF] at hnil
    exact absurd hnil (by simp)

/-- The k-invocations of a full debounce run over time-ordered triggers
are exactly the invocations of the run restricted to k's triggers. -/
theorem projInv_run (delay : Nat) (k : String) :
    ∀ (events : List (String × Nat)) (T : Nat) (stF stP : DebounceState),
    List.Pairwise (fun a b => a.2 ≤ b.2) events →
    (∀ p ∈ events, T ≤ p.2) →
    projInv k T stF stP →
    (runDebounce delay events stF).fired.filter (fun p => p.1 = k)
      = (runDebounce delay (events.filter (fun p => p.1 = k)) stP).fired
  | [], T, stF, stP, _, _, h => by
    obtain ⟨h1, _, _, _, _⟩ := h
    unfold runDebounce
    dsimp only [List.filter_nil]
    rw [List.filter_append]
    exact h1.symm
  | (k', t) :: rest, T, stF, stP, hmono, hge, h => by
    have hT : T ≤ t := hge (k', t) (List.mem_cons_self _ _)
    have hpc := List.pairwise_cons.mp hmono
    have hgerest : ∀ p ∈ rest, t ≤ p.2 := fun p hp => hpc.1 p hp
    by_cases hk : k' = k
    · subst hk
      have hfil : ((k', t) :: rest).filter (fun p => p.1 = k')
          = (k', t) :: rest.filter (fun p => p.1 = k') := by
        simp
      rw [hfil]
      exact projInv_run delay k' rest t (debTrigger delay k' t stF)
        (debTrigger delay k' t stP) hpc.2 hgerest
        (projInv_step_eq delay k' T stF stP t hT h)
    · have hfil : ((k', t) :: rest).filter (fun p => p.1 = k)
          = rest.filter (fun p => p.1 = k) := by
        simp [hk]
      rw [hfil]
      exact projInv_run delay k rest t (debTrigger delay k' t stF) stP
        hpc.2 hgerest
        (projInv_step_ne delay k T stF stP k' t hk hT h)

/-- A burst of same-key triggers, each arriving before the previous timer
expires, keeps exactly one timer armed, set from the latest trigger. -/
theorem runDebounce_burst_aux (delay : Nat) (k : String) :
    ∀ (ts : List Nat) (a : Nat) (f : List (String × Nat)) (tl : Nat),
    List.Chain' (fun x y => y < x + delay) (a :: ts) →
    (a :: ts).getLast? = some tl →
    (runDebounce delay (ts.map (fun u => (k, u)))
      ⟨[(k, a + delay)], f⟩).fired = f ++ [(k, tl + delay)]
  | [], a, f, tl, _, hlast => by
    have ha : a = tl := by
      have h : (([a] : List Nat)).getLast? = some a := rfl
      rw [h] at hlast
      exact Option.some.inj hlast
    rw [ha]
    rfl
  | b :: ts, a, f, tl, hchain, hlast => by
    have hcc := List.chain'_cons.mp hchain
    have hnd : ¬ (a + delay ≤ b) := not_le.mpr hcc.1
    have hstep : debTrigger delay k b ⟨[(k, a + delay)], f⟩
        = ⟨[(k, b + delay)], f⟩ := by
      unfold debTrigger fireDue
      dsimp only
      simp [hnd]
    show (runDebounce delay (ts.map (fun u => (k, u)))
        (debTrigger delay k b ⟨[(k, a + delay)], f⟩)).fired
        = f ++ [(k, tl + delay)]
    rw [hstep]
    refine runDebounce_burst_aux delay k ts b f tl hcc.2 ?_
    rw [← List.getLast?_cons_cons (a := a)]
    exact hlast

/-- A non-empty within-window burst of triggers for one key produces
exactly one invocation, timed from the last trigger. -/
theorem runDebounce_burst (delay : Nat) (k : String) (t : Nat)
    (ts : List Nat) (tl : Nat)
    (hchain : List.Chain' (fun x y => y < x + delay) (t :: ts))
    (hlast : (t :: ts).getLast? = some tl) :
    (runDebounce delay ((t :: ts).map (fun u => (k, u))) ⟨[], []⟩).fired
      = [(k, tl + delay)] := by
  have h0 : debTrigger delay k t ⟨[], []⟩ = ⟨[(k, t + delay)], []⟩ := by
    unfold debTrigger fireDue
    simp
  show (runDebounce delay (ts.map (fun u => (k, u)))
      (debTrigger delay k t ⟨[], []⟩)).fired = [(k, tl + delay)]
  rw [h0]
  rw [runDebounce_burst_aux delay k ts t [] tl hchain hlast]
  simp

/-! Claim C5. -/

/-- C5: for every debounce key, a non-empty burst of N triggers for the
same key, each within the delay window of the previous one, results in
exactly one invocation of the underlying action, armed from the last
trigger's time plus the delay and carrying the key (the argument the
callbacks pass to updateWorktreeBranch after 300 ms respectively
refreshWorktrees after 500 ms); triggers under different keys coalesce
independently (the invocations for a key of a time-ordered trace equal
those of the trace restricted to that key); in particular five
git-head-changed triggers for the same worktree 100 ms apart yield exactly
one updateWorktreeBranch invocation. -/
theorem C5_debounce_coalescing :
    (∀ (delay : Nat) (k : String) (t : Nat) (ts : List Nat) (tl : Nat),
      List.Chain' (fun x y => y < x + delay) (t :: ts) →
      (t :: ts).getLast? = some tl →
      (runDebounce delay ((t :: ts).map (fun u => (k, u)))
        ⟨[], []⟩).fired = [(k, tl + delay)]) ∧
    (∀ (delay : Nat) (k : String) (events : List (String × Nat)),
      List.Pairwise (fun a b => a.2 ≤ b.2) events →
      (runDebounce delay events ⟨[], []⟩).fired.filter (fun p => p.1 = k)
        = (runDebounce delay (events.filter (fun p => p.1 = k))
            ⟨[], []⟩).fired) ∧
    branchUpdateRuns
      [("/w", 0), ("/w", 100), ("/w", 200), ("/w", 300), ("/w", 400)]
      = [("/w", 700)] ∧
    worktreeRefreshRuns [("/r", 0), ("/r", 200)] = [("/r", 700)] := by
  refine ⟨runDebounce_burst, ?_, by decide, by decide⟩
  intro delay k events hmono
  refine projInv_run delay k events 0 ⟨[], []⟩ ⟨[], []⟩ hmono
    (fun p _ => Nat.zero_le p.2) ⟨rfl, by simp, ?_, ?_, ?_⟩
  · intro d hd
    simp at hd
  · intro p hp
    simp at hp
  · intro _ p hp
    simp at hp

/-- C5 witness: the burst conjunct applied to three triggers of one key
inside the 300 ms branch-update window. -/
theorem C5_witness :
    (runDebounce branchUpdateDelayMs
      ((0 :: [100, 250]).map (fun u => ("x", u))) ⟨[], []⟩).fired
      = [("x", 550)] :=
  C5_debounce_coalescing.1 branchUpdateDelayMs "x" 0 [100, 250] 250
    (by
      refine List.chain'_cons.mpr ⟨by decide, ?_⟩
      refine List.chain'_cons.mpr ⟨by decide, ?_⟩
      exact List.chain'_singleton 250)
    (by decide)

end Autopilot
